import Mathlib

/-!
Verification of the bracket-pairing engine in `src/autoCloseBrackets.js`
(the CodeMirror "smartBrackets" extension).

The engine is shallowly embedded.  A document is a list of lines (each a
list of characters), a position is a `(line, ch)` pair, and each
keystroke handler is a pure function from the editor snapshot to an
`Outcome` recording whether the handler suppressed the default action
(`event.preventDefault()`), the list of commands issued to the host
editor, and the host state after the host has applied those commands in
the order they were issued.

The handlers themselves are translated line by line from
`src/autoCloseBrackets.js`.  The host editor (`lib/codemirror`, which is
not under `src/`) applies the issued commands; its range-replacement,
range-extraction and position-adjustment semantics are modelled from the
spec (section 6): "Replace an arbitrary text range with a given string"
and "Set the cursor to an arbitrary position".
-/

namespace ACB

abbrev Line := List Char

/-- A `(line, ch)` document coordinate, as used by the source
(`cm.getCursor()` returns such a pair). -/
structure Pos where
  line : Nat
  ch : Nat
deriving DecidableEq

/-- A command issued by the engine to the host editor (spec section 6):
replace a text range with a string, or set the cursor. -/
inductive Cmd where
  | replaceRange (text : List Char) (f t : Pos)
  | setCursor (p : Pos)
deriving DecidableEq

/-- The host editor's document and cursor, read and edited by the engine. -/
structure EditorState where
  doc : List Line
  cursor : Pos
deriving DecidableEq

/-- Result of one keystroke-handler invocation: whether the default action
was suppressed, the commands issued (in order), and the host state after
applying them. -/
structure Outcome where
  prevented : Bool
  cmds : List Cmd
  final : EditorState
deriving DecidableEq

/-- U+0027, the apostrophe / single-quote glyph. -/
def quoteS : Char := Char.ofNat 39

/-- U+0022, the double-quote glyph. -/
def quoteD : Char := Char.ofNat 34

/-- U+0060, the backquote glyph. -/
def backquote : Char := Char.ofNat 96

/-- The delimiter pair table (source lines 30-37, `const brackets = ...`).
Keys are openers, values are closers; the three quote glyphs are
symmetric (opener = closer). -/
def brackets : List (Char × Char) :=
  [('(', ')'), ('[', ']'), ('{', '}'),
   (quoteS, quoteS), (quoteD, quoteD), (backquote, backquote)]

/-- Source line 44: `Object.keys(brackets).includes(char)`. -/
def isOpenBracket (c : Char) : Bool := (brackets.map Prod.fst).contains c

/-- Source line 51: `Object.values(brackets).includes(char)`. -/
def isCloseBracket (c : Char) : Bool := (brackets.map Prod.snd).contains c

/-- Source line 58: `brackets[open]`.  A JS property read yields
`undefined` when the key is absent, embedded as `none`. -/
def getCloseBracket (c : Char) : Option Char :=
  (brackets.find? (fun p => p.1 == c)).map Prod.snd

/-- Modelled from the spec: the host's `cm.getLine` (spec section 6,
"Query the text of an arbitrary line by index").  Positions are valid by
the host contract (spec section 7), so the default is immaterial. -/
def getLineD (doc : List Line) (l : Nat) : Line := doc.getD l []

/-- Modelled from the spec: splitting of an inserted string into lines at
the newline character, part of the host's range-replacement capability
(spec section 6).  Never returns `[]`. -/
def splitLines : List Char → List Line
  | [] => [[]]
  | c :: rest =>
    match splitLines rest with
    | [] => [[]]
    | x :: xs => if c = '\n' then [] :: x :: xs else (c :: x) :: xs

/-- Helper for `joinEnds`: append `tail` to the last line of the list. -/
def glueLast : List Line → Line → List Line
  | [], tail => [tail]
  | [x], tail => [x ++ tail]
  | x :: y :: rest, tail => x :: glueLast (y :: rest) tail

/-- Helper for `replaceRangeDoc`: prepend `before` to the first inserted
line and append `tail` to the last one. -/
def joinEnds (before : Line) (tl : List Line) (tail : Line) : List Line :=
  match tl with
  | [] => [before ++ tail]
  | [x] => [before ++ x ++ tail]
  | x :: y :: rest => (before ++ x) :: glueLast (y :: rest) tail

/-- Modelled from the spec: the host's `cm.replaceRange` document edit
(spec section 6, "Replace an arbitrary text range with a given string").
The text before `f` on line `f.line` and after `t` on line `t.line` is
kept; the replacement string is split into lines at newlines. -/
def replaceRangeDoc (doc : List Line) (text : List Char) (f t : Pos) : List Line :=
  let before := (getLineD doc f.line).take f.ch
  let tail := (getLineD doc t.line).drop t.ch
  doc.take f.line ++ joinEnds before (splitLines text) tail ++ doc.drop (t.line + 1)

/-- Position order, `p` strictly before `q`. -/
def posLt (p q : Pos) : Bool :=
  decide (p.line < q.line) || (p.line == q.line && decide (p.ch < q.ch))

/-- Position order, `p` at or before `q`. -/
def posLe (p q : Pos) : Bool :=
  decide (p.line < q.line) || (p.line == q.line && decide (p.ch ≤ q.ch))

/-- Modelled from the spec: the end position of an inserted text, used by
the host to relocate positions after an edit. -/
def changeEnd (f : Pos) (text : List Char) : Pos :=
  let tl := splitLines text
  if tl.length ≤ 1 then ⟨f.line, f.ch + text.length⟩
  else ⟨f.line + (tl.length - 1), (tl.getLastD []).length⟩

/-- Modelled from the spec: how the host relocates a position (here, the
cursor) across a range replacement: positions before the replaced range
are unchanged, positions inside it move to the end of the inserted text,
positions after it are shifted by the size change. -/
def adjustPos (p : Pos) (text : List Char) (f t : Pos) : Pos :=
  if posLt p f then p
  else if posLe p t then changeEnd f text
  else if p.line = t.line then
    ⟨(changeEnd f text).line, (changeEnd f text).ch + (p.ch - t.ch)⟩
  else
    ⟨p.line - t.line + (changeEnd f text).line, p.ch⟩

/-- Modelled from the spec: the host applies one engine command to its
state (spec section 6). -/
def applyCmd (st : EditorState) : Cmd → EditorState
  | Cmd.replaceRange text f t =>
    ⟨replaceRangeDoc st.doc text f t, adjustPos st.cursor text f t⟩
  | Cmd.setCursor p => ⟨st.doc, p⟩

/-- Join lines with newline characters (inverse of `splitLines`). -/
def joinLines : List Line → List Char
  | [] => []
  | [l] => l
  | l :: y :: rest => l ++ '\n' :: joinLines (y :: rest)

/-- Modelled from the spec: the host's `cm.getRange`, reading the text
between two positions of the current document. -/
def getRange (doc : List Line) (f t : Pos) : List Char :=
  if f.line = t.line then ((getLineD doc t.line).take t.ch).drop f.ch
  else if f.line < t.line then
    joinLines (((getLineD doc f.line).drop f.ch) ::
      ((doc.drop (f.line + 1)).take (t.line - (f.line + 1)) ++
        [(getLineD doc t.line).take t.ch]))
  else []

/-- Modelled from the spec: `cm.somethingSelected()` — at least one
selection range is non-empty.  Selections are `(anchor, head)` pairs as
returned by `cm.listSelections()`. -/
def somethingSelected (sels : List (Pos × Pos)) : Bool :=
  sels.any (fun s => decide (s.1 ≠ s.2))

/-- JS string concatenation of a one-character string with the result of
the bracket lookup: `undefined` is coerced to the string "undefined". -/
def optText : Option Char → List Char
  | some c => [c]
  | none => "undefined".toList

/-- `isOpenBracket` applied to a `charAt` result; JS `charAt` out of range
yields `""`, which is not a table key. -/
def optIsOpen : Option Char → Bool
  | some c => isOpenBracket c
  | none => false

/-- `isCloseBracket` applied to a `charAt` result; JS `charAt` out of
range yields `""`, which is not a table value. -/
def optIsClose : Option Char → Bool
  | some c => isCloseBracket c
  | none => false

/-- `line.charAt(pos.ch - 1)` at the current cursor (source lines 144 and
178); `none` models the empty string JS returns out of range, in
particular at column 0 where the index is -1. -/
def prevCharAt (st : EditorState) : Option Char :=
  if st.cursor.ch = 0 then none
  else (getLineD st.doc st.cursor.line).get? (st.cursor.ch - 1)

/-- `line.charAt(pos.ch)` at the current cursor (source lines 74, 145 and
179). -/
def nextCharAt (st : EditorState) : Option Char :=
  (getLineD st.doc st.cursor.line).get? st.cursor.ch

/-- Source lines 84-87: `cm.listSelections().forEach(...)`.  Each
iteration reads the range text from the live document (after the earlier
iterations' edits) but at the selection coordinates captured when the
list was taken, then issues one `replaceRange`. -/
def wrapSelections (char : Char) (close : Option Char) :
    List (Pos × Pos) → EditorState → EditorState × List Cmd
  | [], st => (st, [])
  | sel :: rest, st =>
    let text := getRange st.doc sel.1 sel.2
    let cmd := Cmd.replaceRange (char :: (text ++ optText close)) sel.1 sel.2
    let r := wrapSelections char close rest (applyCmd st cmd)
    (r.1, cmd :: r.2)

/-- Source lines 80-92, the `autocomplete` closure: with a selection,
wrap every listed selection; otherwise insert `char + close` at the
cursor and put the cursor one column to the right. -/
def autocomplete (char : Char) (close : Option Char) (pos : Pos)
    (st : EditorState) (sels : List (Pos × Pos)) : EditorState × List Cmd :=
  if somethingSelected sels then
    wrapSelections char close sels st
  else
    let cmd1 := Cmd.replaceRange (char :: optText close) pos pos
    let cmd2 := Cmd.setCursor ⟨pos.line, pos.ch + 1⟩
    (applyCmd (applyCmd st cmd1) cmd2, [cmd1, cmd2])

/-- Source lines 65-120, `handleKeypress`, parametrised by the value the
closer lookup of line 75 produced (`handleKeypress` below instantiates it
with `getCloseBracket char`).  Line 70 returns before anything else when
the character is neither opener nor closer; `handleRightBracket` (lines
98-101) suppresses the default and moves the cursor one column right;
the dispatch is lines 112-118. -/
def handleKeypressCore (char : Char) (close : Option Char)
    (st : EditorState) (sels : List (Pos × Pos)) : Outcome :=
  if !isOpenBracket char && !isCloseBracket char then ⟨false, [], st⟩
  else
    let pos := st.cursor
    let nextChar := nextCharAt st
    let rbCmd := Cmd.setCursor ⟨pos.line, pos.ch + 1⟩
    let rb : Outcome := ⟨true, [rbCmd], applyCmd st rbCmd⟩
    let ac : Outcome :=
      let r := autocomplete char close pos st sels
      ⟨true, r.2, r.1⟩
    if isOpenBracket char == isCloseBracket char then
      if nextChar == some char then rb else ac
    else if isOpenBracket char then ac
    else if nextChar == some char then rb else ⟨false, [], st⟩

/-- Source line 75 supplies the closer lookup result to the rest of
`handleKeypress`. -/
def handleKeypress (char : Char) (st : EditorState)
    (sels : List (Pos × Pos)) : Outcome :=
  handleKeypressCore char (getCloseBracket char) st sels

/-- The arguments `handleKeypress` passes to `getCloseBracket`: line 70
returns before line 75 runs when the character is neither opener nor
closer; otherwise line 75 invokes the lookup once, on the typed
character, before any classification into opener/closer branches. -/
def closerLookupArgs (char : Char) : List Char :=
  if !isOpenBracket char && !isCloseBracket char then [] else [char]

/-- The arguments `handleBackspace` passes to `getCloseBracket`: the
condition on source line 182 short-circuits, so the lookup runs only
after `isOpenBracket(prevChar)` held. -/
def backspaceLookupArgs (st : EditorState) : List Char :=
  match prevCharAt st with
  | none => []
  | some p => if isOpenBracket p then [p] else []

/-- The whitespace class of the JS regex `\s`, used by
`line.match(/^\s*/)` on source line 152: tab, LF, VT, FF, CR, space,
NBSP, U+1680, U+2000 through U+200A, U+2028, U+2029, U+202F, U+205F,
U+3000 and U+FEFF. -/
def isJsSpace (c : Char) : Bool :=
  c == ' ' || c == '\t' || c == '\n' || c == '\x0b' || c == '\x0c' || c == '\x0d' ||
  c == '\u00A0' || c == '\u1680' || c == '\u2000' || c == '\u2001' ||
  c == '\u2002' || c == '\u2003' || c == '\u2004' || c == '\u2005' ||
  c == '\u2006' || c == '\u2007' || c == '\u2008' || c == '\u2009' ||
  c == '\u200A' || c == '\u2028' || c == '\u2029' || c == '\u202F' ||
  c == '\u205F' || c == '\u3000' || c == '\uFEFF'

/-- Source lines 141-166, `handleEnter`: when the character before the
cursor is an opener and the character after it is a closer, suppress the
default line break, insert newline + indentation + extra indent +
newline + indentation at the cursor, and put the cursor on the middle
line after the indentation. -/
def handleEnter (st : EditorState) (tabSize : Nat) : Outcome :=
  let pos := st.cursor
  let line := getLineD st.doc pos.line
  if optIsOpen (prevCharAt st) && optIsClose (nextCharAt st) then
    let indentation := line.takeWhile isJsSpace
    let extraIndent := List.replicate tabSize ' '
    let newText := '\n' :: (indentation ++ extraIndent) ++ '\n' :: indentation
    let cmd1 := Cmd.replaceRange newText pos pos
    let cmd2 := Cmd.setCursor ⟨pos.line + 1, indentation.length + tabSize⟩
    ⟨true, [cmd1, cmd2], applyCmd (applyCmd st cmd1) cmd2⟩
  else ⟨false, [], st⟩

/-- Source line 182: `isOpenBracket(prevChar) && nextChar ===
getCloseBracket(prevChar)` (`===` between the `charAt` result and the
lookup result is false whenever either side is missing). -/
def backspaceCond (st : EditorState) : Bool :=
  match prevCharAt st with
  | none => false
  | some p =>
    isOpenBracket p &&
      match getCloseBracket p with
      | none => false
      | some cl => nextCharAt st == some cl

/-- Source lines 173-190, `handleBackspace`: with a selection it returns
at once (line 174, no suppression); between an empty matching pair it
suppresses the default and deletes both delimiters with a single
`replaceRange` of the empty string. -/
def handleBackspace (st : EditorState) (sels : List (Pos × Pos)) : Outcome :=
  if somethingSelected sels then ⟨false, [], st⟩
  else if backspaceCond st then
    let pos := st.cursor
    let cmd := Cmd.replaceRange [] ⟨pos.line, pos.ch - 1⟩ ⟨pos.line, pos.ch + 1⟩
    ⟨true, [cmd], applyCmd st cmd⟩
  else ⟨false, [], st⟩

/-- A command is a document edit (as opposed to a cursor move). -/
def isEditCmd : Cmd → Bool
  | Cmd.replaceRange _ _ _ => true
  | Cmd.setCursor _ => false

/-- Number of document-edit commands an outcome issued. -/
def editCount (o : Outcome) : Nat := (o.cmds.filter isEditCmd).length

/-- Follows the spec's words (claim C2): every selected range is replaced
by opener + its original text + closer, "each selection is transformed
atomically and independently; no cross-selection interaction".  Stated
for ascending disjoint selections on a single line, given as
`(anchor.ch, head.ch)` column ranges; `prev` is the column where the
still-unprocessed rest of the line starts. -/
def specWrapSegs (c x : Char) (line : Line) : Nat → List (Nat × Nat) → Line
  | prev, [] => line.drop prev
  | prev, s :: rest =>
    ((line.take s.1).drop prev) ++
      c :: (((line.take s.2).drop s.1) ++ x :: specWrapSegs c x line s.2 rest)

/-! ## General lemmas about the host model and the bracket table -/

theorem splitLines_ne_nil (l : List Char) : splitLines l ≠ [] := by
  cases l with
  | nil => simp [splitLines]
  | cons c rest =>
    cases h : splitLines rest with
    | nil => simp [splitLines, h]
    | cons x xs => by_cases hc : c = '\n' <;> simp [splitLines, h, hc]

theorem splitLines_eq_single (l : List Char) (h : '\n' ∉ l) : splitLines l = [l] := by
  induction l with
  | nil => rfl
  | cons c rest ih =>
    have hc : c ≠ '\n' := by
      intro e
      exact h (by simp [e])
    have hr : '\n' ∉ rest := fun m => h (List.mem_cons_of_mem c m)
    simp [splitLines, ih hr, hc]

theorem splitLines_cons_newline (l : List Char) :
    splitLines ('\n' :: l) = [] :: splitLines l := by
  cases h : splitLines l with
  | nil => exact absurd h (splitLines_ne_nil l)
  | cons x xs => simp [splitLines, h]

theorem splitLines_append_newline (A B : List Char) (hA : '\n' ∉ A) :
    splitLines (A ++ '\n' :: B) = A :: splitLines B := by
  induction A with
  | nil => simpa using splitLines_cons_newline B
  | cons c A ih =>
    have hc : c ≠ '\n' := by
      intro e
      exact hA (by simp [e])
    have hA2 : '\n' ∉ A := fun m => hA (List.mem_cons_of_mem c m)
    rw [List.cons_append]
    simp [splitLines, ih hA2, hc]

theorem isOpenBracket_cases {c : Char} (h : isOpenBracket c = true) :
    c = '(' ∨ c = '[' ∨ c = '{' ∨ c = quoteS ∨ c = quoteD ∨ c = backquote := by
  simp [isOpenBracket, brackets] at h
  tauto

theorem optIsOpen_iff (o : Option Char) :
    optIsOpen o = true ↔ ∃ p, o = some p ∧ isOpenBracket p = true := by
  cases o <;> simp [optIsOpen]

theorem optIsClose_iff (o : Option Char) :
    optIsClose o = true ↔ ∃ n, o = some n ∧ isCloseBracket n = true := by
  cases o <;> simp [optIsClose]

theorem lt_length_of_get?_eq_some {l : List Char} {n : Nat} {a : Char}
    (h : l.get? n = some a) : n < l.length := by
  rcases List.get?_eq_some.mp h with ⟨hl, _⟩
  exact hl

theorem line_exists_of_nextCharAt {st : EditorState} {a : Char}
    (h : nextCharAt st = some a) : st.cursor.line < st.doc.length := by
  by_contra hge
  have hempty : getLineD st.doc st.cursor.line = [] := by
    unfold getLineD
    rw [List.getD_eq_getElem?_getD, List.getElem?_eq_none (by omega), Option.getD_none]
  rw [nextCharAt, hempty] at h
  simp at h

theorem getLineD_middle (doc : List Line) (l : Nat) (mid : Line) (hl : l < doc.length) :
    getLineD (doc.take l ++ [mid] ++ doc.drop (l + 1)) l = mid := by
  unfold getLineD
  have hlen : (doc.take l).length = l := by
    rw [List.length_take]
    omega
  rw [List.append_assoc, List.getD_eq_getElem?_getD,
    List.getElem?_append_right (by omega), hlen]
  simp

theorem adjustPos_pair_delete (q : Pos) :
    adjustPos q [] ⟨q.line, q.ch - 1⟩ ⟨q.line, q.ch + 1⟩ = ⟨q.line, q.ch - 1⟩ := by
  have h1 : posLt q ⟨q.line, q.ch - 1⟩ = false := by
    simp [posLt]
  have h2 : posLe q ⟨q.line, q.ch + 1⟩ = true := by
    simp [posLe]
  simp [adjustPos, h1, h2, changeEnd, splitLines]

theorem posLt_ne {a b : Pos} (h : posLt a b = true) : a ≠ b := by
  intro e
  subst e
  simp [posLt] at h

theorem posLt_cases {a b : Pos} (h : posLt a b = true) :
    a.line < b.line ∨ (a.line = b.line ∧ a.ch < b.ch) := by
  simpa [posLt] using h

theorem joinLines_cons (l : Line) (rest : List Line) (h : rest ≠ []) :
    joinLines (l :: rest) = l ++ '\n' :: joinLines rest := by
  cases rest with
  | nil => exact absurd rfl h
  | cons y t => rfl

theorem joinLines_append_last (ms : List Line) (B : Line) (suf : List Char) :
    joinLines (ms ++ [B ++ suf]) = joinLines (ms ++ [B]) ++ suf := by
  induction ms with
  | nil => rfl
  | cons m ms ih =>
    rw [List.cons_append, List.cons_append,
      joinLines_cons _ _ (by simp), joinLines_cons _ _ (by simp), ih]
    simp

theorem splitLines_joinLines (ls : List Line) (h : ls ≠ [])
    (hnl : ∀ l ∈ ls, ('\n') ∉ l) : splitLines (joinLines ls) = ls := by
  induction ls with
  | nil => exact absurd rfl h
  | cons l rest ih =>
    cases rest with
    | nil => exact splitLines_eq_single l (hnl l (by simp))
    | cons y t =>
      rw [joinLines_cons _ _ (by simp),
        splitLines_append_newline _ _ (hnl l (by simp)),
        ih (by simp) (fun m hm => hnl m (List.mem_cons_of_mem _ hm))]

theorem glueLast_cons (m : Line) (l : List Line) (tail : Line) (h : l ≠ []) :
    glueLast (m :: l) tail = m :: glueLast l tail := by
  cases l with
  | nil => exact absurd rfl h
  | cons y t =>
    cases t <;> rfl

theorem glueLast_append_last (ms : List Line) (B : Line) (tail : Line) :
    glueLast (ms ++ [B]) tail = ms ++ [B ++ tail] := by
  induction ms with
  | nil => rfl
  | cons m ms ih =>
    rw [List.cons_append, glueLast_cons _ _ _ (by simp), ih, List.cons_append]

theorem joinEnds_cons_append (before A : Line) (ms : List Line) (B tail : Line) :
    joinEnds before (A :: (ms ++ [B])) tail =
      (before ++ A) :: (ms ++ [B ++ tail]) := by
  cases ms with
  | nil => rfl
  | cons m ms2 =>
    show (before ++ A) :: glueLast (m :: (ms2 ++ [B])) tail = _
    rw [glueLast_cons _ _ _ (by simp), glueLast_append_last]
    simp

theorem getLineD_no_newline {doc : List Line} (hdoc : ∀ l ∈ doc, ('\n') ∉ l)
    (i : Nat) : ('\n') ∉ getLineD doc i := by
  unfold getLineD
  rw [List.getD_eq_getElem?_getD]
  cases h : doc[i]? with
  | none => simp
  | some l =>
    simp only [Option.getD_some]
    exact hdoc l (List.getElem?_mem h)

theorem autocomplete_insert (c x : Char) (st : EditorState) (sels : List (Pos × Pos))
    (hsel : somethingSelected sels = false) (hc : c ≠ '\n') (hx : x ≠ '\n') :
    autocomplete c (some x) st.cursor st sels =
      (⟨st.doc.take st.cursor.line ++
          [((getLineD st.doc st.cursor.line).take st.cursor.ch) ++
            c :: x :: ((getLineD st.doc st.cursor.line).drop st.cursor.ch)] ++
          st.doc.drop (st.cursor.line + 1),
        ⟨st.cursor.line, st.cursor.ch + 1⟩⟩,
       [Cmd.replaceRange [c, x] st.cursor st.cursor,
        Cmd.setCursor ⟨st.cursor.line, st.cursor.ch + 1⟩]) := by
  have hmem : '\n' ∉ [c, x] := by
    intro m
    rcases List.mem_cons.mp m with e | m2
    · exact hc e.symm
    · rcases List.mem_cons.mp m2 with e | m3
      · exact hx e.symm
      · exact absurd m3 (List.not_mem_nil _)
  have hsplit : splitLines [c, x] = [[c, x]] := splitLines_eq_single _ hmem
  simp [autocomplete, hsel, applyCmd, replaceRangeDoc, optText, hsplit, joinEnds]

theorem wrapSelections_single (c x : Char) (st : EditorState) (a b : Pos)
    (hc : c ≠ '\n') (hx : x ≠ '\n') (hfwd : posLt a b = true)
    (hdoc : ∀ l ∈ st.doc, ('\n') ∉ l) :
    (autocomplete c (some x) st.cursor st [(a, b)]).2 =
      [Cmd.replaceRange (c :: (getRange st.doc a b ++ [x])) a b] ∧
    (autocomplete c (some x) st.cursor st [(a, b)]).1.doc =
      st.doc.take a.line ++
        (if a.line = b.line then
          [((getLineD st.doc a.line).take a.ch) ++
            c :: ((getRange st.doc a b) ++ x :: ((getLineD st.doc b.line).drop b.ch))]
        else
          (((getLineD st.doc a.line).take a.ch) ++
            c :: ((getLineD st.doc a.line).drop a.ch)) ::
            (((st.doc.drop (a.line + 1)).take (b.line - (a.line + 1))) ++
              [((getLineD st.doc b.line).take b.ch) ++
                x :: ((getLineD st.doc b.line).drop b.ch)])) ++
        st.doc.drop (b.line + 1) := by
  have hne : a ≠ b := posLt_ne hfwd
  have hsel : somethingSelected [(a, b)] = true := by
    simp [somethingSelected, hne]
  have hdoceq : (autocomplete c (some x) st.cursor st [(a, b)]).1.doc =
      replaceRangeDoc st.doc (c :: (getRange st.doc a b ++ [x])) a b := by
    simp [autocomplete, hsel, wrapSelections, optText, applyCmd]
  constructor
  · simp [autocomplete, hsel, wrapSelections, optText]
  · rw [hdoceq]
    rcases posLt_cases hfwd with hlt | hsame
    · rw [if_neg (by omega)]
      have hrange : getRange st.doc a b =
          joinLines (((getLineD st.doc a.line).drop a.ch) ::
            (((st.doc.drop (a.line + 1)).take (b.line - (a.line + 1))) ++
              [(getLineD st.doc b.line).take b.ch])) := by
        rw [getRange, if_neg (by omega), if_pos hlt]
      have hmids : ∀ m ∈ (st.doc.drop (a.line + 1)).take (b.line - (a.line + 1)),
          ('\n') ∉ m := fun m hm =>
        hdoc m (List.drop_subset _ _ (List.take_subset _ _ hm))
      have hLa := getLineD_no_newline hdoc a.line
      have hLb := getLineD_no_newline hdoc b.line
      have htext : (c :: (getRange st.doc a b ++ [x])) =
          joinLines ((c :: ((getLineD st.doc a.line).drop a.ch)) ::
            (((st.doc.drop (a.line + 1)).take (b.line - (a.line + 1))) ++
              [((getLineD st.doc b.line).take b.ch) ++ [x]])) := by
        rw [hrange, joinLines_cons _ _ (by simp), joinLines_cons _ _ (by simp),
          joinLines_append_last]
        simp
      have hsplit : splitLines (c :: (getRange st.doc a b ++ [x])) =
          (c :: ((getLineD st.doc a.line).drop a.ch)) ::
            (((st.doc.drop (a.line + 1)).take (b.line - (a.line + 1))) ++
              [((getLineD st.doc b.line).take b.ch) ++ [x]]) := by
        rw [htext]
        refine splitLines_joinLines _ (by simp) ?_
        intro l hl
        rcases List.mem_cons.mp hl with e | hl2
        · subst e
          intro m
          rcases List.mem_cons.mp m with e2 | m2
          · exact hc e2.symm
          · exact hLa (List.drop_subset _ _ m2)
        · rcases List.mem_append.mp hl2 with hm | hm
          · exact hmids l hm
          · have e2 := List.mem_singleton.mp hm
            subst e2
            intro m
            rcases List.mem_append.mp m with m3 | m4
            · exact hLb (List.take_subset _ _ m3)
            · have e3 := List.mem_singleton.mp m4
              exact hx e3.symm
      simp only [replaceRangeDoc, hsplit, joinEnds_cons_append]
      simp [List.append_assoc]
    · rw [if_pos hsame.1]
      have hslice : getRange st.doc a b =
          ((getLineD st.doc b.line).take b.ch).drop a.ch := by
        rw [getRange, if_pos hsame.1]
      have htext : ('\n') ∉ c :: (getRange st.doc a b ++ [x]) := by
        intro m
        rcases List.mem_cons.mp m with e | m2
        · exact hc e.symm
        rcases List.mem_append.mp m2 with m3 | m4
        · rw [hslice] at m3
          exact (getLineD_no_newline hdoc b.line)
            (List.take_subset _ _ (List.drop_subset _ _ m3))
        · have e2 := List.mem_singleton.mp m4
          exact hx e2.symm
      have hsplit := splitLines_eq_single _ htext
      simp only [replaceRangeDoc, hsplit, joinEnds]
      simp [List.append_assoc]

theorem wrapSelections_editCount (c : Char) (cl : Option Char)
    (sels : List (Pos × Pos)) (st : EditorState) :
    ((wrapSelections c cl sels st).2.filter isEditCmd).length = sels.length := by
  induction sels generalizing st with
  | nil => simp [wrapSelections]
  | cons s rest ih => simp [wrapSelections, isEditCmd, ih]

theorem autocomplete_editCount (c : Char) (cl : Option Char) (pos : Pos)
    (st : EditorState) (sels : List (Pos × Pos)) :
    ((autocomplete c cl pos st sels).2.filter isEditCmd).length ≤ max 1 sels.length := by
  by_cases hs : somethingSelected sels
  · rw [autocomplete, if_pos hs, wrapSelections_editCount]
    exact le_max_right _ _
  · rw [autocomplete, if_neg hs]
    simp [isEditCmd]

/-! ## Claim C1 -/

/-- C1: for every opener `c` in the delimiter pair table, when the
character-insertion handler (`autocomplete`) runs with no active
selection, it inserts exactly the two-character sequence `c` followed by
`closerFor c` at the cursor position (the current line becomes
`take ch ++ [c, x] ++ drop ch`, every other line unchanged) and places
the cursor between the two inserted characters, one column after the
opener. -/
theorem c1_insert_pair_no_selection (c : Char) (st : EditorState)
    (sels : List (Pos × Pos))
    (hc : isOpenBracket c = true) (hsel : somethingSelected sels = false) :
    ∃ x, getCloseBracket c = some x ∧
      autocomplete c (getCloseBracket c) st.cursor st sels =
        (⟨st.doc.take st.cursor.line ++
            [((getLineD st.doc st.cursor.line).take st.cursor.ch) ++
              c :: x :: ((getLineD st.doc st.cursor.line).drop st.cursor.ch)] ++
            st.doc.drop (st.cursor.line + 1),
          ⟨st.cursor.line, st.cursor.ch + 1⟩⟩,
         [Cmd.replaceRange [c, x] st.cursor st.cursor,
          Cmd.setCursor ⟨st.cursor.line, st.cursor.ch + 1⟩]) := by
  rcases isOpenBracket_cases hc with h | h | h | h | h | h <;> subst h <;>
    exact ⟨_, rfl, autocomplete_insert _ _ st sels hsel (by decide) (by decide)⟩

/-- C1 witness: typing `(` in line `ab` at column 1 with no selection
yields `a()b` with the cursor at column 2, between the parentheses. -/
theorem c1_insert_pair_no_selection_witness :
    autocomplete '(' (getCloseBracket '(') (⟨0, 1⟩ : Pos)
      ⟨[("ab").toList], ⟨0, 1⟩⟩ [] =
      (⟨[("a()b").toList], ⟨0, 2⟩⟩,
       [Cmd.replaceRange [('('), (')')] ⟨0, 1⟩ ⟨0, 1⟩, Cmd.setCursor ⟨0, 2⟩]) := by
  obtain ⟨x, hx, he⟩ :=
    c1_insert_pair_no_selection '(' ⟨[("ab").toList], ⟨0, 1⟩⟩ [] (by decide) rfl
  have hx2 : x = ')' := by
    have h2 : some ')' = some x := by
      rw [← hx]
      decide
    exact (Option.some.injEq _ _ ▸ h2).symm
  subst hx2
  exact he.trans (by decide)

/-! ## Claim C2 -/

/-- C2 counterexample: the claim that every selection is wrapped
independently with no cross-selection interaction fails.  With line
`ab cd` and the two selections covering `ab` (columns 0-2) and `cd`
(columns 3-5), typing `(` produces the document line `(ab() )cd`,
whereas independent transformation of each selection (the spec-side
`specWrapSegs`) yields `(ab) (cd)`.  The second `replaceRange` uses the
selection coordinates captured before the first edit, which are stale
after the first wrap grows the line. -/
theorem c2_counterexample_cross_selection_interaction :
    (handleKeypress '(' ⟨[("ab cd").toList], ⟨0, 0⟩⟩
       [(⟨0, 0⟩, ⟨0, 2⟩), (⟨0, 3⟩, ⟨0, 5⟩)]).final.doc = [("(ab() )cd").toList] ∧
    [specWrapSegs '(' ')' (("ab cd").toList) 0 [(0, 2), (3, 5)]] =
      [("(ab) (cd)").toList] ∧
    (handleKeypress '(' ⟨[("ab cd").toList], ⟨0, 0⟩⟩
       [(⟨0, 0⟩, ⟨0, 2⟩), (⟨0, 3⟩, ⟨0, 5⟩)]).final.doc ≠
      [specWrapSegs '(' ')' (("ab cd").toList) 0 [(0, 2), (3, 5)]] := by decide

/-- C2 (amended): for every opener `c` with closer `x` and a single
non-empty forward selection `(a, b)` — anchor strictly before head,
spanning one or more lines — containing text `T`, triggering insertion
with `c` issues exactly one `replaceRange` that replaces the selected
range with `c ++ T ++ x`: on one line the selected line becomes
`take a.ch ++ c ++ T ++ x ++ drop b.ch`; across lines the opener is
inserted at the anchor, the closer at the head, the selected middle
lines stay unchanged — and every line outside the selection is
unchanged.  With several selections each `replaceRange` still uses the
coordinates captured before any edit, so selections after an earlier
wrap on the same line are transformed at stale positions (see the
counterexample); and the engine issues no command that restores the
selection to cover `T`. -/
theorem c2_wrap_single_selection (c : Char) (st : EditorState) (a b : Pos)
    (hc : isOpenBracket c = true) (hfwd : posLt a b = true)
    (hdoc : ∀ l ∈ st.doc, ('\n') ∉ l) :
    ∃ x, getCloseBracket c = some x ∧
      (autocomplete c (getCloseBracket c) st.cursor st [(a, b)]).2 =
        [Cmd.replaceRange (c :: (getRange st.doc a b ++ [x])) a b] ∧
      (autocomplete c (getCloseBracket c) st.cursor st [(a, b)]).1.doc =
        st.doc.take a.line ++
          (if a.line = b.line then
            [((getLineD st.doc a.line).take a.ch) ++
              c :: ((getRange st.doc a b) ++
                x :: ((getLineD st.doc b.line).drop b.ch))]
          else
            (((getLineD st.doc a.line).take a.ch) ++
              c :: ((getLineD st.doc a.line).drop a.ch)) ::
              (((st.doc.drop (a.line + 1)).take (b.line - (a.line + 1))) ++
                [((getLineD st.doc b.line).take b.ch) ++
                  x :: ((getLineD st.doc b.line).drop b.ch)])) ++
          st.doc.drop (b.line + 1) := by
  rcases isOpenBracket_cases hc with h | h | h | h | h | h <;> subst h <;>
    exact ⟨_, rfl,
      (wrapSelections_single _ _ st a b (by decide) (by decide) hfwd hdoc).1,
      (wrapSelections_single _ _ st a b (by decide) (by decide) hfwd hdoc).2⟩

/-- C2 witness: wrapping the single selection covering `ab` (columns
0-2) of line `ab` with `(` issues one `replaceRange` and produces the
line `(ab)`; wrapping the multi-line selection from (0,1) to (1,1) of
the document `ab` / `cd` issues one `replaceRange` of the text
`(b`, newline, `c)` and produces the lines `a(b` and `c)d`. -/
theorem c2_wrap_single_selection_witness :
    ((autocomplete '(' (getCloseBracket '(') (⟨0, 0⟩ : Pos)
       ⟨[("ab").toList], ⟨0, 0⟩⟩ [(⟨0, 0⟩, ⟨0, 2⟩)]).2 =
      [Cmd.replaceRange (("(ab)").toList) ⟨0, 0⟩ ⟨0, 2⟩] ∧
     (autocomplete '(' (getCloseBracket '(') (⟨0, 0⟩ : Pos)
       ⟨[("ab").toList], ⟨0, 0⟩⟩ [(⟨0, 0⟩, ⟨0, 2⟩)]).1.doc = [("(ab)").toList]) ∧
    ((autocomplete '(' (getCloseBracket '(') (⟨0, 0⟩ : Pos)
       ⟨[("ab").toList, ("cd").toList], ⟨0, 0⟩⟩ [(⟨0, 1⟩, ⟨1, 1⟩)]).2 =
      [Cmd.replaceRange (("(b\nc)").toList) ⟨0, 1⟩ ⟨1, 1⟩] ∧
     (autocomplete '(' (getCloseBracket '(') (⟨0, 0⟩ : Pos)
       ⟨[("ab").toList, ("cd").toList], ⟨0, 0⟩⟩ [(⟨0, 1⟩, ⟨1, 1⟩)]).1.doc =
      [("a(b").toList, ("c)d").toList]) := by
  obtain ⟨x, hx, h1, h2⟩ := c2_wrap_single_selection '('
    ⟨[("ab").toList], ⟨0, 0⟩⟩ ⟨0, 0⟩ ⟨0, 2⟩ (by decide) (by decide) (by decide)
  obtain ⟨y, hy, g1, g2⟩ := c2_wrap_single_selection '('
    ⟨[("ab").toList, ("cd").toList], ⟨0, 0⟩⟩ ⟨0, 1⟩ ⟨1, 1⟩
    (by decide) (by decide) (by decide)
  have hx2 : x = ')' := by
    have he : some ')' = some x := by
      rw [← hx]
      decide
    exact (Option.some.injEq _ _ ▸ he).symm
  have hy2 : y = ')' := by
    have he : some ')' = some y := by
      rw [← hy]
      decide
    exact (Option.some.injEq _ _ ▸ he).symm
  subst hx2
  subst hy2
  exact ⟨⟨h1.trans (by decide), h2.trans (by decide)⟩,
    ⟨g1.trans (by decide), g2.trans (by decide)⟩⟩

/-! ## Claim C3 -/

/-- C3 counterexample: the claim that the line-break handler fires only
when the next character is the previous opener's exact closer fails.
With line `(]` and the cursor between the characters, the previous
character `(` is an opener whose closer is `)`, the next character `]`
is a different closer, yet `handleEnter` suppresses the default and
edits. -/
theorem c3_counterexample_mismatched_closer :
    (handleEnter ⟨[("(]").toList], ⟨0, 1⟩⟩ 2).prevented = true ∧
    (handleEnter ⟨[("(]").toList], ⟨0, 1⟩⟩ 2).cmds ≠ [] ∧
    prevCharAt ⟨[("(]").toList], ⟨0, 1⟩⟩ = some '(' ∧
    nextCharAt ⟨[("(]").toList], ⟨0, 1⟩⟩ = some ']' ∧
    getCloseBracket '(' = some ')' ∧ (']' : Char) ≠ ')' := by decide

/-- C3 (amended): the line-break handler suppresses the default and
performs the split-line-with-indent edit if and only if the character
immediately before the cursor is an opener AND the character immediately
after the cursor is any closer (not necessarily the opener's own); in
every other configuration the line break passes through unmodified. -/
theorem c3_enter_trigger_condition (st : EditorState) (tabSize : Nat) :
    ((handleEnter st tabSize).prevented = true ↔
      ((∃ p, prevCharAt st = some p ∧ isOpenBracket p = true) ∧
       (∃ n, nextCharAt st = some n ∧ isCloseBracket n = true))) ∧
    ((handleEnter st tabSize).prevented = false →
      handleEnter st tabSize = ⟨false, [], st⟩) := by
  by_cases hcond : (optIsOpen (prevCharAt st) && optIsClose (nextCharAt st)) = true
  · rw [Bool.and_eq_true] at hcond
    constructor
    · simp only [handleEnter, hcond.1, hcond.2, Bool.and_self, if_true]
      simp only [true_iff]
      exact ⟨(optIsOpen_iff _).mp hcond.1, (optIsClose_iff _).mp hcond.2⟩
    · intro hf
      simp only [handleEnter, hcond.1, hcond.2, Bool.and_self, if_true] at hf
      exact absurd hf (by simp)
  · have hout : handleEnter st tabSize = ⟨false, [], st⟩ := by
      simp only [handleEnter]
      rw [if_neg (by simpa using hcond)]
    constructor
    · rw [hout]
      constructor
      · intro hf
        exact absurd hf (by simp)
      · rintro ⟨hp, hn⟩
        exact absurd (by
          rw [Bool.and_eq_true]
          exact ⟨(optIsOpen_iff _).mpr hp, (optIsClose_iff _).mpr hn⟩) hcond
    · intro _
      exact hout

/-- C3 witness: the trigger condition holds between `(` and `)` of line
`()`, so the handler suppresses the default line break there. -/
theorem c3_enter_trigger_condition_witness :
    (handleEnter ⟨[("()").toList], ⟨0, 1⟩⟩ 2).prevented = true :=
  (c3_enter_trigger_condition ⟨[("()").toList], ⟨0, 1⟩⟩ 2).1.mpr
    ⟨⟨'(', by decide, by decide⟩, ⟨')', by decide, by decide⟩⟩

/-! ## Claim C4 -/

/-- C4: when delete-backward fires with no active selection, the
character before the cursor an opener and the character after it that
opener's exact closer, the handler suppresses the default and removes
both characters with one single `replaceRange` (an atomic edit: the line
becomes `take (ch-1) ++ drop (ch+1)` and shrinks by exactly two
characters), and the cursor comes to rest between the surrounding
characters at column `ch - 1`; in every other situation (selection
active, or no matching adjacent empty pair) the handler does nothing and
the default single-character delete applies. -/
theorem c4_backspace_pair_deletion (st : EditorState) (sels : List (Pos × Pos)) :
    (∀ p x, somethingSelected sels = false → prevCharAt st = some p →
      isOpenBracket p = true → getCloseBracket p = some x → nextCharAt st = some x →
      handleBackspace st sels =
        ⟨true,
         [Cmd.replaceRange [] ⟨st.cursor.line, st.cursor.ch - 1⟩
            ⟨st.cursor.line, st.cursor.ch + 1⟩],
         ⟨st.doc.take st.cursor.line ++
            [((getLineD st.doc st.cursor.line).take (st.cursor.ch - 1)) ++
              ((getLineD st.doc st.cursor.line).drop (st.cursor.ch + 1))] ++
            st.doc.drop (st.cursor.line + 1),
          ⟨st.cursor.line, st.cursor.ch - 1⟩⟩⟩ ∧
      (getLineD (handleBackspace st sels).final.doc st.cursor.line).length + 2 =
        (getLineD st.doc st.cursor.line).length) ∧
    ((somethingSelected sels = true ∨ backspaceCond st = false) →
      handleBackspace st sels = ⟨false, [], st⟩) := by
  constructor
  · intro p x hsel hprev hopen hclosex hnext
    have hcond : backspaceCond st = true := by
      simp [backspaceCond, hprev, hopen, hclosex, hnext]
    have hch : 1 ≤ st.cursor.ch := by
      by_contra hle
      have h0 : st.cursor.ch = 0 := by omega
      simp [prevCharAt, h0] at hprev
    have hchlt : st.cursor.ch < (getLineD st.doc st.cursor.line).length :=
      lt_length_of_get?_eq_some hnext
    have heq : handleBackspace st sels =
        ⟨true,
         [Cmd.replaceRange [] ⟨st.cursor.line, st.cursor.ch - 1⟩
            ⟨st.cursor.line, st.cursor.ch + 1⟩],
         ⟨st.doc.take st.cursor.line ++
            [((getLineD st.doc st.cursor.line).take (st.cursor.ch - 1)) ++
              ((getLineD st.doc st.cursor.line).drop (st.cursor.ch + 1))] ++
            st.doc.drop (st.cursor.line + 1),
          ⟨st.cursor.line, st.cursor.ch - 1⟩⟩⟩ := by
      simp [handleBackspace, hsel, hcond, applyCmd, replaceRangeDoc, splitLines,
        joinEnds, adjustPos_pair_delete]
    refine ⟨heq, ?_⟩
    rw [heq]
    have hline : st.cursor.line < st.doc.length := line_exists_of_nextCharAt hnext
    show (getLineD (st.doc.take st.cursor.line ++ [_] ++
      st.doc.drop (st.cursor.line + 1)) st.cursor.line).length + 2 = _
    rw [getLineD_middle _ _ _ hline]
    rw [List.length_append, List.length_take, List.length_drop]
    omega
  · rintro (hs | hcond)
    · simp [handleBackspace, hs]
    · by_cases hsel : somethingSelected sels <;>
        simp [handleBackspace, hsel, hcond]

/-- C4 witness: on line `a()b` with the cursor between the parentheses
and no selection, delete-backward removes both parentheses in one edit,
leaving `ab` with the cursor between `a` and `b`. -/
theorem c4_backspace_pair_deletion_witness :
    handleBackspace ⟨[("a()b").toList], ⟨0, 2⟩⟩ [] =
      ⟨true, [Cmd.replaceRange [] ⟨0, 1⟩ ⟨0, 3⟩], ⟨[("ab").toList], ⟨0, 1⟩⟩⟩ := by
  have h := (c4_backspace_pair_deletion ⟨[("a()b").toList], ⟨0, 2⟩⟩ []).1 '(' ')'
    (by decide) (by decide) (by decide) (by decide) (by decide)
  exact h.1.trans (by decide)

/-! ## Claim C5 -/

/-- C5: for every character `c` that is a closer (pure asymmetric closer
or symmetric delimiter), typing `c` when the character immediately after
the cursor equals `c` produces the advance-cursor intent: the handler
suppresses the default, issues only a cursor move, the cursor advances
exactly one column, and the document text is unchanged. -/
theorem c5_closer_type_through (c : Char) (st : EditorState)
    (sels : List (Pos × Pos))
    (hc : isCloseBracket c = true) (hn : nextCharAt st = some c) :
    handleKeypress c st sels =
      ⟨true, [Cmd.setCursor ⟨st.cursor.line, st.cursor.ch + 1⟩],
       ⟨st.doc, ⟨st.cursor.line, st.cursor.ch + 1⟩⟩⟩ := by
  by_cases ho : isOpenBracket c <;>
    simp [handleKeypress, handleKeypressCore, hc, ho, hn, applyCmd]

/-- C5 witness: typing `)` in line `x)` at column 1 moves the cursor to
column 2 and leaves the document unchanged. -/
theorem c5_closer_type_through_witness :
    handleKeypress ')' ⟨[("x)").toList], ⟨0, 1⟩⟩ [] =
      ⟨true, [Cmd.setCursor ⟨0, 2⟩], ⟨[("x)").toList], ⟨0, 2⟩⟩⟩ := by
  have h := c5_closer_type_through ')' ⟨[("x)").toList], ⟨0, 1⟩⟩ []
    (by decide) (by decide)
  exact h.trans (by decide)

/-! ## Claim C6 -/

/-- C6: when the line-break condition holds (opener before the cursor,
closer after it), the edit produces three lines in place of the current
one: the content preceding the cursor, then a line holding the current
leading-whitespace indentation plus `tabSize` extra space columns with
the cursor placed at its end (the second conjunct records that the
cursor column equals that line's length, so with `tabSize = 0` the
middle line still exists and the cursor sits at its end), then a line of
the indentation followed by the original trailing content. -/
theorem c6_enter_three_line_split (st : EditorState) (tabSize : Nat) (p n : Char)
    (hp : prevCharAt st = some p) (hpo : isOpenBracket p = true)
    (hn : nextCharAt st = some n) (hnc : isCloseBracket n = true)
    (hnl : ('\n') ∉ getLineD st.doc st.cursor.line) :
    handleEnter st tabSize =
      ⟨true,
       [Cmd.replaceRange
          ('\n' :: (((getLineD st.doc st.cursor.line).takeWhile isJsSpace) ++
            List.replicate tabSize ' ') ++
            '\n' :: ((getLineD st.doc st.cursor.line).takeWhile isJsSpace))
          st.cursor st.cursor,
        Cmd.setCursor ⟨st.cursor.line + 1,
          ((getLineD st.doc st.cursor.line).takeWhile isJsSpace).length + tabSize⟩],
       ⟨st.doc.take st.cursor.line ++
          [(getLineD st.doc st.cursor.line).take st.cursor.ch,
           ((getLineD st.doc st.cursor.line).takeWhile isJsSpace) ++
             List.replicate tabSize ' ',
           ((getLineD st.doc st.cursor.line).takeWhile isJsSpace) ++
             (getLineD st.doc st.cursor.line).drop st.cursor.ch] ++
          st.doc.drop (st.cursor.line + 1),
        ⟨st.cursor.line + 1,
          ((getLineD st.doc st.cursor.line).takeWhile isJsSpace).length + tabSize⟩⟩⟩ ∧
    (((getLineD st.doc st.cursor.line).takeWhile isJsSpace) ++
        List.replicate tabSize ' ').length =
      ((getLineD st.doc st.cursor.line).takeWhile isJsSpace).length + tabSize := by
  have hopen : optIsOpen (prevCharAt st) = true := by
    rw [hp]
    exact hpo
  have hclose : optIsClose (nextCharAt st) = true := by
    rw [hn]
    exact hnc
  have hind : ('\n') ∉ (getLineD st.doc st.cursor.line).takeWhile isJsSpace := by
    intro m
    exact hnl ((List.takeWhile_sublist _).subset m)
  have hmid : ('\n') ∉ ((getLineD st.doc st.cursor.line).takeWhile isJsSpace) ++
      List.replicate tabSize ' ' := by
    intro m
    rcases List.mem_append.mp m with m1 | m2
    · exact hind m1
    · have hsp := List.eq_of_mem_replicate m2
      simp at hsp
  have hsplit : splitLines
      ('\n' :: (((getLineD st.doc st.cursor.line).takeWhile isJsSpace) ++
        (List.replicate tabSize ' ' ++
          '\n' :: ((getLineD st.doc st.cursor.line).takeWhile isJsSpace)))) =
      [[], ((getLineD st.doc st.cursor.line).takeWhile isJsSpace) ++
        List.replicate tabSize ' ',
       (getLineD st.doc st.cursor.line).takeWhile isJsSpace] := by
    rw [← List.append_assoc, splitLines_cons_newline,
      splitLines_append_newline _ _ hmid, splitLines_eq_single _ hind]
  constructor
  · simp only [handleEnter, hopen, hclose, Bool.and_self, if_true]
    simp [applyCmd, replaceRangeDoc, hsplit, joinEnds, glueLast]
  · simp

/-- C6 witness: the spec's example — line `  foo()` with the cursor
between the parentheses and indent width 2 becomes the three lines
`  foo(`, `    ` and `  )`, with the cursor at the end of the middle
line (line 1, column 4). -/
theorem c6_enter_three_line_split_witness :
    handleEnter ⟨[("  foo()").toList], ⟨0, 6⟩⟩ 2 =
      ⟨true,
       [Cmd.replaceRange (("\n    \n  ").toList) ⟨0, 6⟩ ⟨0, 6⟩,
        Cmd.setCursor ⟨1, 4⟩],
       ⟨[("  foo(").toList, ("    ").toList, ("  )").toList], ⟨1, 4⟩⟩⟩ := by
  have h := c6_enter_three_line_split ⟨[("  foo()").toList], ⟨0, 6⟩⟩ 2 '(' ')'
    (by decide) (by decide) (by decide) (by decide) (by decide)
  exact h.1.trans (by decide)

/-! ## Claim C7 -/

/-- C7 counterexample: the claim that the closer lookup is never invoked
on a character not confirmed to be an opener fails.  Typing the pure
closer `)` passes the bracket guard of source line 70, so line 75
invokes `getCloseBracket` on `)` — before any opener/closer dispatch,
hence also on the path where the next character matches the closer. -/
theorem c7_counterexample_lookup_on_closer :
    closerLookupArgs ')' = [')'] ∧ isOpenBracket ')' = false := by decide

/-- C7 (amended): the keypress handler invokes the closer lookup eagerly
on every character that passes the bracket guard, so also on pure
closers; but every such argument is at least a bracket-table character
(for a non-opener it is always a closer), the backspace handler looks up
only characters already confirmed as openers, and for a non-opener the
handler's outcome is independent of the value the lookup produced (the
result is never consumed). -/
theorem c7_lookup_use_discipline (char : Char) (o1 o2 : Option Char)
    (st : EditorState) (sels : List (Pos × Pos))
    (h : isOpenBracket char = false) :
    (∀ c ∈ closerLookupArgs char, isCloseBracket c = true) ∧
    (∀ c ∈ backspaceLookupArgs st, isOpenBracket c = true) ∧
    handleKeypressCore char o1 st sels = handleKeypressCore char o2 st sels := by
  refine ⟨?_, ?_, ?_⟩
  · intro c hm
    by_cases hc : isCloseBracket char
    · simp [closerLookupArgs, h, hc] at hm
      subst hm
      exact hc
    · simp [closerLookupArgs, h, hc] at hm
  · intro c hm
    unfold backspaceLookupArgs at hm
    rcases hp : prevCharAt st with _ | p
    · simp [hp] at hm
    · rw [hp] at hm
      by_cases ho : isOpenBracket p
      · simp [ho] at hm
        subst hm
        exact ho
      · simp [ho] at hm
  · by_cases hc : isCloseBracket char <;>
      simp [handleKeypressCore, h, hc]

/-- C7 witness: for the pure closer `)` the keypress outcome is the same
whatever the looked-up closer value was, and every lookup argument on
that keystroke is a closer. -/
theorem c7_lookup_use_discipline_witness :
    handleKeypressCore ')' none ⟨[("x)").toList], ⟨0, 1⟩⟩ [] =
      handleKeypressCore ')' (some '?') ⟨[("x)").toList], ⟨0, 1⟩⟩ [] ∧
    (∀ c ∈ closerLookupArgs ')', isCloseBracket c = true) := by
  have h := c7_lookup_use_discipline ')' none (some '?')
    ⟨[("x)").toList], ⟨0, 1⟩⟩ [] (by decide)
  exact ⟨h.2.2, h.1⟩

/-! ## Claim C8 -/

/-- C8 counterexample: the claim that the engine issues at most one edit
command per keystroke fails.  Typing `(` over a snapshot with two active
selections issues two `replaceRange` commands, one per selection. -/
theorem c8_counterexample_two_edit_commands :
    editCount (handleKeypress '(' ⟨[("ab cd").toList], ⟨0, 0⟩⟩
      [(⟨0, 0⟩, ⟨0, 2⟩), (⟨0, 3⟩, ⟨0, 5⟩)]) = 2 ∧
    ¬ editCount (handleKeypress '(' ⟨[("ab cd").toList], ⟨0, 0⟩⟩
      [(⟨0, 0⟩, ⟨0, 2⟩), (⟨0, 3⟩, ⟨0, 5⟩)]) ≤ 1 := by decide

/-- C8 (amended): per keystroke the keypress handler issues at most
`max 1 (number of listed selections)` document-edit commands — at most
one except in the wrap-selection case, which issues one `replaceRange`
per listed selection — the line-break and delete-backward handlers issue
at most one document-edit command, and every handler that does not
suppress the default issues no command at all (no partial edit). -/
theorem c8_edit_command_budget (char : Char) (st : EditorState)
    (sels : List (Pos × Pos)) (tabSize : Nat) :
    editCount (handleKeypress char st sels) ≤ max 1 sels.length ∧
    editCount (handleEnter st tabSize) ≤ 1 ∧
    editCount (handleBackspace st sels) ≤ 1 ∧
    ((handleKeypress char st sels).prevented = false →
      (handleKeypress char st sels).cmds = []) ∧
    ((handleEnter st tabSize).prevented = false →
      (handleEnter st tabSize).cmds = []) ∧
    ((handleBackspace st sels).prevented = false →
      (handleBackspace st sels).cmds = []) := by
  refine ⟨?_, ?_, ?_, ?_, ?_, ?_⟩
  · unfold handleKeypress handleKeypressCore editCount
    by_cases h1 : (!isOpenBracket char && !isCloseBracket char) = true
    · simp [h1]
    · simp only [h1, if_false, Bool.false_eq_true]
      split
      · split
        · simp [isEditCmd]
        · exact autocomplete_editCount _ _ _ _ _
      · split
        · exact autocomplete_editCount _ _ _ _ _
        · split
          · simp [isEditCmd]
          · simp
  · unfold handleEnter editCount
    split
    · simp [isEditCmd]
    · simp
  · unfold handleBackspace editCount
    split
    · simp
    · split
      · simp [isEditCmd]
      · simp
  · unfold handleKeypress handleKeypressCore
    by_cases h1 : (!isOpenBracket char && !isCloseBracket char) = true
    · simp [h1]
    · simp only [h1, if_false, Bool.false_eq_true]
      split
      · split <;> simp
      · split
        · simp
        · split <;> simp
  · unfold handleEnter
    split <;> simp
  · unfold handleBackspace
    split
    · simp
    · split <;> simp

/-- C8 witness: typing the plain letter `a` suppresses nothing, issues no
command, and its edit count is within the budget. -/
theorem c8_edit_command_budget_witness :
    (handleKeypress 'a' ⟨[("ab").toList], ⟨0, 0⟩⟩ []).cmds = [] ∧
    editCount (handleKeypress 'a' ⟨[("ab").toList], ⟨0, 0⟩⟩ []) ≤ max 1 0 := by
  have h := c8_edit_command_budget 'a' ⟨[("ab").toList], ⟨0, 0⟩⟩ [] 0
  exact ⟨h.2.2.2.1 (by decide), h.1⟩

/-! ## Claim C9 -/

/-- C9: for every typed character that is neither opener nor closer, and
for a pure closer typed when the next character does not match it, the
character-insertion handler neither suppresses the host's default
behavior nor issues any command: the outcome is a no-op and the editor
state is untouched. -/
theorem c9_unhandled_pass_through (c : Char) (st : EditorState)
    (sels : List (Pos × Pos)) :
    ((isOpenBracket c = false ∧ isCloseBracket c = false) →
      handleKeypress c st sels = ⟨false, [], st⟩) ∧
    ((isOpenBracket c = false ∧ isCloseBracket c = true ∧ nextCharAt st ≠ some c) →
      handleKeypress c st sels = ⟨false, [], st⟩) := by
  constructor
  · rintro ⟨h1, h2⟩
    simp [handleKeypress, handleKeypressCore, h1, h2]
  · rintro ⟨h1, h2, h3⟩
    have hb : (nextCharAt st == some c) = false := by
      simp [h3]
    simp [handleKeypress, handleKeypressCore, h1, h2, hb]

/-- C9 witness: the plain letter `a`, and the closer `)` typed when the
next character is `b`, both pass through with no suppression and no
command. -/
theorem c9_unhandled_pass_through_witness :
    handleKeypress 'a' ⟨[("ab").toList], ⟨0, 1⟩⟩ [] =
      ⟨false, [], ⟨[("ab").toList], ⟨0, 1⟩⟩⟩ ∧
    handleKeypress ')' ⟨[("ab").toList], ⟨0, 1⟩⟩ [] =
      ⟨false, [], ⟨[("ab").toList], ⟨0, 1⟩⟩⟩ := by
  have h1 := c9_unhandled_pass_through 'a' ⟨[("ab").toList], ⟨0, 1⟩⟩ []
  have h2 := c9_unhandled_pass_through ')' ⟨[("ab").toList], ⟨0, 1⟩⟩ []
  exact ⟨h1.1 ⟨by decide, by decide⟩, h2.2 ⟨by decide, by decide, by decide⟩⟩

/-! ## Claim C10 -/

/-- C10: for every delete-backward keystroke with the cursor at column 0
of any line, the deletion handler never triggers: the character before
the cursor reads as missing (JS `charAt(-1)` is the empty string, not an
opener), so the handler issues no command, never edits across a line
boundary, and the default delete behavior applies. -/
theorem c10_backspace_column_zero (st : EditorState) (sels : List (Pos × Pos))
    (h : st.cursor.ch = 0) :
    handleBackspace st sels = ⟨false, [], st⟩ := by
  have hp : prevCharAt st = none := by
    simp [prevCharAt, h]
  by_cases hs : somethingSelected sels <;>
    simp [handleBackspace, hs, backspaceCond, hp]

/-- C10 witness: delete-backward at column 0 of line `ab` is a complete
no-op for the engine. -/
theorem c10_backspace_column_zero_witness :
    handleBackspace ⟨[("ab").toList], ⟨0, 0⟩⟩ [] =
      ⟨false, [], ⟨[("ab").toList], ⟨0, 0⟩⟩⟩ :=
  c10_backspace_column_zero ⟨[("ab").toList], ⟨0, 0⟩⟩ [] rfl

end ACB
